import Mathlib

/-!
Verification development for the cube-manager core of the repository
(`cube_manager.py`).  The document tree manipulated by the manager is a
Python `xml.etree.ElementTree` tree; we embed elements shallowly as a
mutual inductive (an element together with its ordered child list), with
the `text`/`tail` whitespace slots that the formatter rewrites.

Faithfulness notes, tied to the source:
* `root.find(".//Cube[@name='N']")` interpolates the name between single
  quotes inside an XPath predicate and hands the result to
  `xml.etree.ElementPath`.  The lookup is modelled by a full port of the
  CPython 3.11 `ElementPath` engine for relative paths: the tokenizer
  (`tokStep`), the namespace-prefix check applied when a tag token is
  consumed (`wrapperCheck`), the selector compiler with its distinct
  `SyntaxError` raise sites and the `KeyError` of the `ops` dispatch
  (`compileLoop`, `mkPred`), and the selector execution (`execStep`).
  Execution works on node positions (lists of child indices), which is how
  a pure model expresses the identity comparisons (`is`, `parent_map`)
  of the stdlib.  For a name without a single quote the whole machine
  collapses to an exact-match search over all `Cube` descendants in
  document preorder (`etFind_no_quote`); names containing quotes reach
  whatever the real engine does: `invalid predicate`, a stray-token
  `KeyError`, or a successfully compiling multi-step path.
  Scope notes: character classes (`\s`, `\d`, `int()`) are modelled over
  ASCII, and the sibling scan of a position predicate
  (`parent.findall(elem.tag)`) is modelled as one child step, faithful
  whenever element tags tokenize as single name tokens, which holds for
  every document the XML parser can produce.
* `delete_cube` calls `cube.getparent()`.  `xml.etree.ElementTree`
  elements have no `getparent` method (it is an lxml API), so the call
  raises `AttributeError` whenever the cube was found; the file is never
  rewritten on that path.  Modelled by `CubeError.attributeError`.
* Pydantic enforces `min_items=1` on the dimension / hierarchy / level /
  measure lists but places no constraint on the strings `cube_name` and
  `table_name` (empty strings pass).  Modelled by `pydanticOK`.
* A mutation succeeds only by returning `Except.ok` with the new tree,
  which the manager then formats (`format_xml`) and serialises
  (`serializeDoc`) into the file; an `Except.error` outcome performs no
  write, so the persisted document is unchanged on every error path.
* `persistLoad` models writing the formatted tree and parsing it back:
  the XML round-trip is faithful except that the parser discards the
  whitespace that follows the root element, i.e. the root `tail`.
-/

/-- The single-quote character interpolated into XPath predicates. -/
def sqc : Char := Char.ofNat 39

/-- A one-character string holding a single quote. -/
def sqs : String := String.mk [sqc]

/-- The opening brace character (written by code point to keep it out of
string literals). -/
def lbr : Char := Char.ofNat 123

/-- The closing brace character. -/
def rbr : Char := Char.ofNat 125

/-- Whether a string contains a single quote. -/
def containsQuote (s : String) : Bool := s.data.contains sqc

/-- Characters stripped by Python `str.strip()` (ASCII whitespace). -/
def isPySpace (c : Char) : Bool :=
  c == ' ' || c == '\t' || c == '\n' || c == '\r' || c == Char.ofNat 11 || c == Char.ofNat 12

/-- Python truthiness test used by the formatter:
`not s or not s.strip()` for an optional text slot. -/
def pyBlank : Option String → Bool
  | none => true
  | some s => s.data.all isPySpace

/-- Python `str(b).lower()` for a boolean. -/
def pyBool (b : Bool) : String := if b then "true" else "false"

/-- Python `", ".join(l)`. -/
def joinComma : List String → String
  | [] => ""
  | [s] => s
  | s :: rest => s ++ ", " ++ joinComma rest

mutual
/-- An `xml.etree.ElementTree` element: tag, attributes in insertion
order, optional text, ordered children, optional tail. -/
inductive XElem : Type where
  | mk (tag : String) (attrs : List (String × String)) (text : Option String)
      (children : XList) (tail : Option String)
deriving DecidableEq
/-- An ordered list of elements (the children of an element). -/
inductive XList : Type where
  | nil
  | cons (e : XElem) (es : XList)
deriving DecidableEq
end

/-- Tag accessor. -/
def XElem.tag : XElem → String
  | .mk t _ _ _ _ => t

/-- Attribute-list accessor. -/
def XElem.attrs : XElem → List (String × String)
  | .mk _ a _ _ _ => a

/-- Text accessor. -/
def XElem.text : XElem → Option String
  | .mk _ _ x _ _ => x

/-- Children accessor. -/
def XElem.children : XElem → XList
  | .mk _ _ _ cs _ => cs

/-- Tail accessor. -/
def XElem.tail : XElem → Option String
  | .mk _ _ _ _ tl => tl

/-- Convert a child list to a `List`. -/
def XList.toList : XList → List XElem
  | .nil => []
  | .cons e es => e :: es.toList

/-- Build a child list from a `List`. -/
def XList.ofList : List XElem → XList
  | [] => .nil
  | e :: es => .cons e (XList.ofList es)

/-- Append one element at the end of a child list
(Python `schema.append(cube_elem)`). -/
def XList.snoc : XList → XElem → XList
  | .nil, e => .cons e .nil
  | .cons x xs, e => .cons x (xs.snoc e)

/-- Whether a child list is empty (Python `len(elem)` falsy). -/
def XList.isEmpty : XList → Bool
  | .nil => true
  | .cons _ _ => false

/-- Python `elem.get(key)`: first attribute with the given key. -/
def findAttr (k : String) : List (String × String) → Option String
  | [] => none
  | (k2, v) :: rest => if k2 == k then some v else findAttr k rest

/-- Attribute lookup on an element. -/
def attrGet (e : XElem) (k : String) : Option String := findAttr k e.attrs

mutual
/-- Descendants of an element in document (preorder) order, excluding the
element itself: the node set traversed by `elem.iter()` / `.//`. -/
def descE : XElem → List XElem
  | .mk _ _ _ cs _ => descL cs
/-- Preorder traversal of a forest: each element followed by its
descendants, in document order. -/
def descL : XList → List XElem
  | .nil => []
  | .cons e es => e :: (descE e ++ descL es)
end

/-- All descendants of the document root (the search space of `.//`). -/
def descendants (root : XElem) : List XElem := descE root

/-- Whether an element is a `Cube` element. -/
def isCube (e : XElem) : Bool := e.tag == "Cube"

/-- The XPath predicate `Cube[@name='name']`: tag and exact attribute
match. -/
def cubeNamed (name : String) (e : XElem) : Bool :=
  isCube e && attrGet e "name" == some name

/-- Model of `root.find(".//Cube[@name='name']")` for a name without a
single quote: first matching descendant in document order. -/
def findCube (root : XElem) (name : String) : Option XElem :=
  ((descendants root).filter (cubeNamed name)).head?

/-- Model of `root.findall('.//Cube')`: all Cube descendants in document
order. -/
def cubeList (root : XElem) : List XElem := (descendants root).filter isCube

/-- Cube names as produced by `cube.get('name', 'Unnamed Cube')` over
`findall('.//Cube')`. -/
def enumNames (root : XElem) : List String :=
  (cubeList root).map (fun c => (attrGet c "name").getD "Unnamed Cube")

/-- The count returned by `enumerate_cubes`. -/
def enumCount (root : XElem) : Nat := (cubeList root).length

/-- Model of `enumerate_cubes`: count and ordered name list. -/
def enumerate_cubes (root : XElem) : Nat × List String :=
  (enumCount root, enumNames root)

/-- Whether an element is a `Schema` element. -/
def isSchema (e : XElem) : Bool := e.tag == "Schema"

mutual
/-- Model of `root.find('.//Schema')` over a forest: first descendant
with tag `Schema` in document order. -/
def findSchemaL : XList → Option XElem
  | .nil => none
  | .cons e es =>
    if isSchema e then some e
    else
      match findSchemaE e with
      | some s => some s
      | none => findSchemaL es
/-- First `Schema` strictly below an element, in document order. -/
def findSchemaE : XElem → Option XElem
  | .mk _ _ _ cs _ => findSchemaL cs
end

mutual
/-- Replace the first descendant with tag `Schema` (document order) by
the image under `f`; `none` when no such descendant exists. -/
def replSchemaL (f : XElem → XElem) : XList → Option XList
  | .nil => none
  | .cons e es =>
    if isSchema e then some (XList.cons (f e) es)
    else
      match replSchemaE f e with
      | some e2 => some (XList.cons e2 es)
      | none =>
        match replSchemaL f es with
        | some es2 => some (XList.cons e es2)
        | none => none
/-- Forest-replacement inside one element's subtree. -/
def replSchemaE (f : XElem → XElem) : XElem → Option XElem
  | .mk t a x cs tl =>
    match replSchemaL f cs with
    | some cs2 => some (XElem.mk t a x cs2 tl)
    | none => none
end

/-- The node `create_cube` mutates: `root.find('.//Schema')`, falling
back to the root itself when no descendant matches. -/
def schemaOf : XElem → XElem
  | XElem.mk t a x cs tl => (findSchemaL cs).getD (XElem.mk t a x cs tl)

/-- Apply a mutation to the node selected by `schemaOf`, in place inside
the tree. -/
def applyToSchema (f : XElem → XElem) : XElem → XElem
  | XElem.mk t a x cs tl =>
    match replSchemaL f cs with
    | some cs2 => XElem.mk t a x cs2 tl
    | none => f (XElem.mk t a x cs tl)

/-- Level part of `CreateCubeRequest` (after pydantic parsing). -/
structure Level where
  name : String
  column : String
  type : String
  uniqueMembers : Option Bool
deriving DecidableEq

/-- Hierarchy part of `CreateCubeRequest` (after pydantic parsing). -/
structure Hierarchy where
  name : Option String
  hasAll : Bool
  allMemberName : Option String
  levels : List Level
deriving DecidableEq

/-- Dimension part of `CreateCubeRequest` (after pydantic parsing). -/
structure Dimension where
  name : String
  hierarchies : List Hierarchy
deriving DecidableEq

/-- Measure part of `CreateCubeRequest` (after pydantic parsing). -/
structure Measure where
  name : String
  column : String
  aggregator : String
  formatString : Option String
deriving DecidableEq

/-- The create/update request body (after pydantic parsing). -/
structure CreateCubeRequest where
  cube_name : String
  table_name : String
  dimensions : List Dimension
  measures : List Measure
deriving DecidableEq

/-- A level as it appears on the wire, before pydantic applies field
defaults. -/
structure RawLevel where
  name : String
  column : String
  type : Option String
  uniqueMembers : Option Bool
deriving DecidableEq

/-- Pydantic parsing of a level: `type` defaults to `"String"`. -/
def RawLevel.parse (r : RawLevel) : Level :=
  ⟨r.name, r.column, r.type.getD "String", r.uniqueMembers⟩

/-- A hierarchy as it appears on the wire, before defaults. -/
structure RawHierarchy where
  name : Option String
  hasAll : Option Bool
  allMemberName : Option String
  levels : List Level
deriving DecidableEq

/-- Pydantic parsing of a hierarchy: `hasAll` defaults to `True`. -/
def RawHierarchy.parse (r : RawHierarchy) : Hierarchy :=
  ⟨r.name, r.hasAll.getD true, r.allMemberName, r.levels⟩

/-- A measure as it appears on the wire, before defaults. -/
structure RawMeasure where
  name : String
  column : String
  aggregator : Option String
  formatString : Option String
deriving DecidableEq

/-- Pydantic parsing of a measure: `aggregator` defaults to `"sum"`. -/
def RawMeasure.parse (r : RawMeasure) : Measure :=
  ⟨r.name, r.column, r.aggregator.getD "sum", r.formatString⟩

/-- The request-shape constraints pydantic actually enforces:
`min_items=1` on `dimensions`, each `hierarchies`, each `levels`, and
`measures`.  No constraint restricts `cube_name` or `table_name`. -/
def pydanticOK (r : CreateCubeRequest) : Bool :=
  !r.dimensions.isEmpty &&
    r.dimensions.all
      (fun d => !d.hierarchies.isEmpty && d.hierarchies.all (fun h => !h.levels.isEmpty)) &&
    !r.measures.isEmpty

/-- The `Level` element built inside `create_cube`: name, column, type
always; `uniqueMembers` only when the optional field is not `None`. -/
def buildLevel (l : Level) : XElem :=
  XElem.mk "Level"
    ([("name", l.name), ("column", l.column), ("type", l.type)] ++
      (match l.uniqueMembers with
        | some b => [("uniqueMembers", pyBool b)]
        | none => []))
    none XList.nil none

/-- The `Hierarchy` element built inside `create_cube`: `name` and
`allMemberName` are set under Python truthiness (`if hierarchy.name:`),
so only when present and non-empty; `hasAll` is always rendered. -/
def buildHierarchy (h : Hierarchy) : XElem :=
  XElem.mk "Hierarchy"
    ((match h.name with
        | some s => if s == "" then [] else [("name", s)]
        | none => []) ++
      [("hasAll", pyBool h.hasAll)] ++
      (match h.allMemberName with
        | some s => if s == "" then [] else [("allMemberName", s)]
        | none => []))
    none (XList.ofList (h.levels.map buildLevel)) none

/-- The `Dimension` element built inside `create_cube`. -/
def buildDimension (d : Dimension) : XElem :=
  XElem.mk "Dimension" [("name", d.name)] none
    (XList.ofList (d.hierarchies.map buildHierarchy)) none

/-- The `Measure` element built inside `create_cube`; `formatString`
only under truthiness. -/
def buildMeasure (m : Measure) : XElem :=
  XElem.mk "Measure"
    ([("name", m.name), ("column", m.column), ("aggregator", m.aggregator)] ++
      (match m.formatString with
        | some s => if s == "" then [] else [("formatString", s)]
        | none => []))
    none XList.nil none

/-- The complete `Cube` subtree built by `create_cube`: the `Table`
child first, then the dimensions, then the measures. -/
def buildCube (r : CreateCubeRequest) : XElem :=
  XElem.mk "Cube" [("name", r.cube_name)] none
    (XList.cons (XElem.mk "Table" [("name", r.table_name)] none XList.nil none)
      (XList.ofList (r.dimensions.map buildDimension ++ r.measures.map buildMeasure)))
    none

/-- Append the built cube as the last child of the schema node
(`ET.SubElement` followed by the remove/append tail-position step, whose
net effect is exactly an append at the end). -/
def appendCube (r : CreateCubeRequest) : XElem → XElem
  | XElem.mk t a x cs tl => XElem.mk t a x (cs.snoc (buildCube r)) tl

/-- Characters excluded from a tag token by the tokenizer. -/
def tagExcluded (c : Char) : Bool :=
  c == '/' || c == '[' || c == ']' || c == '(' || c == ')' || c == '@' || c == '!' ||
    c == '=' || isPySpace c

/-- Structured xpath tokens. -/
inductive XTok : Type where
  | str (delim : Char) (content : List Char)
  | opColonColon | opSlashSlash | opSlash | opDotDot | opParens | opBangEq
  | opDot | opStar | opColon | opLBrack | opRBrack | opLParen | opRParen | opAt | opEq
  | tagTok (t : List Char)
  | wsTok
deriving DecidableEq

/-- Tag-token or skip fallbacks of the tokenizer. -/
def tagOrSkip : List Char → Option XTok × List Char
  | [] => (none, [])
  | c :: rest =>
    let viaPre : Option (XTok × List Char) :=
      if c == lbr then
        match rest.dropWhile (fun d => !(d == rbr)) with
        | _ :: rest2 =>
          let inside := rest.takeWhile (fun d => !(d == rbr))
          if inside.isEmpty then none
          else
            let body := rest2.takeWhile (fun d => !tagExcluded d)
            if body.isEmpty then none
            else some (XTok.tagTok ((lbr :: inside ++ [rbr]) ++ body), rest2.drop body.length)
        | [] => none
      else none
    match viaPre with
    | some (t, r) => (some t, r)
    | none =>
      let body := (c :: rest).takeWhile (fun d => !tagExcluded d)
      if body.isEmpty then
        if isPySpace c then (some XTok.wsTok, (c :: rest).dropWhile isPySpace)
        else (none, rest)
      else (some (XTok.tagTok body), (c :: rest).drop body.length)

/-- One tokenizer step: the regex alternatives in order. -/
def tokStep : List Char → Option XTok × List Char
  | [] => (none, [])
  | c :: rest =>
    if c == sqc then
      match rest.dropWhile (fun d => !(d == sqc)) with
      | _ :: rest2 => (some (XTok.str sqc (rest.takeWhile (fun d => !(d == sqc)))), rest2)
      | [] => tagOrSkip (c :: rest)
    else if c == '"' then
      match rest.dropWhile (fun d => !(d == '"')) with
      | _ :: rest2 => (some (XTok.str '"' (rest.takeWhile (fun d => !(d == '"')))), rest2)
      | [] => tagOrSkip (c :: rest)
    else if c == ':' then
      match rest with
      | d :: rest2 => if d == ':' then (some XTok.opColonColon, rest2) else (some XTok.opColon, d :: rest2)
      | [] => (some XTok.opColon, [])
    else if c == '/' then
      match rest with
      | d :: rest2 => if d == '/' then (some XTok.opSlashSlash, rest2) else (some XTok.opSlash, d :: rest2)
      | [] => (some XTok.opSlash, [])
    else if c == '.' then
      match rest with
      | d :: rest2 => if d == '.' then (some XTok.opDotDot, rest2) else (some XTok.opDot, d :: rest2)
      | [] => (some XTok.opDot, [])
    else if c == '(' then
      match rest with
      | d :: rest2 => if d == ')' then (some XTok.opParens, rest2) else (some XTok.opLParen, d :: rest2)
      | [] => (some XTok.opLParen, [])
    else if c == '!' then
      match rest with
      | d :: rest2 => if d == '=' then (some XTok.opBangEq, rest2) else tagOrSkip (c :: d :: rest2)
      | [] => tagOrSkip [c]
    else if c == '*' then (some XTok.opStar, rest)
    else if c == '[' then (some XTok.opLBrack, rest)
    else if c == ']' then (some XTok.opRBrack, rest)
    else if c == ')' then (some XTok.opRParen, rest)
    else if c == '@' then (some XTok.opAt, rest)
    else if c == '=' then (some XTok.opEq, rest)
    else tagOrSkip (c :: rest)

/-- Fuelled tokenizer loop; every step consumes at least one character, so
`cs.length` fuel always suffices. -/
def tokenizeAux : Nat → List Char → List XTok
  | 0, _ => []
  | _, [] => []
  | Nat.succ fuel, c :: rest =>
    match tokStep (c :: rest) with
    | (some t, r) => t :: tokenizeAux fuel r
    | (none, r) => tokenizeAux fuel r

/-- The token stream of a path. -/
def xtokens (cs : List Char) : List XTok := tokenizeAux cs.length cs

/-- Error outcomes of the manager, as surfaced to the HTTP layer; the
xpath constructors mirror the distinct raise sites reachable from the
interpolated lookup path. -/
inductive CubeError : Type where
  /-- HTTP 404: named cube absent; the detail lists the known names. -/
  | notFound (detail : String)
  /-- HTTP 400: duplicate name on create. -/
  | conflict (detail : String)
  /-- HTTP 422: pydantic rejected the request body. -/
  | validationError
  /-- Uncaught `SyntaxError: invalid predicate` from `prepare_predicate`. -/
  | invalidPredicate
  /-- Uncaught `SyntaxError: invalid descendant`. -/
  | invalidDescendant
  /-- Uncaught `SyntaxError: invalid path`. -/
  | invalidPath
  /-- Uncaught `SyntaxError: prefix %r not found in prefix map` from the
  tokenizer wrapper (no namespace map is passed). -/
  | prefixNotFound (p : String)
  /-- Uncaught `SyntaxError: XPath position >= 1 expected`. -/
  | positionBound
  /-- Uncaught `SyntaxError: XPath offset from last() must be negative`. -/
  | lastOffset
  /-- Uncaught `SyntaxError: unsupported function`. -/
  | unsupportedFunction
  /-- Uncaught `SyntaxError: unsupported expression`. -/
  | unsupportedExpr
  /-- Uncaught `KeyError` from the `ops` dispatch on a token that cannot
  start a selector; the payload holds the token text. -/
  | keyError (tok : String)
  /-- Uncaught `TypeError`: a truncated path leaves a `None` entry in the
  selector list, which is then called during execution. -/
  | brokenSelector
  /-- Uncaught `AttributeError` from `cube.getparent()`. -/
  | attributeError (msg : String)
deriving DecidableEq

-- ===== tag selectors =====

inductive TagSel : Type where
  | starSel
  | anyTag
  | noNs
  | anyNs (n : List Char)
  | nsOnly (p : List Char)
  | plain (t : String)
deriving DecidableEq

def endsWithL (l suf : List Char) : Bool := l.reverse.take suf.length == suf.reverse

def isWildcardTag (t : List Char) : Bool :=
  t.take 3 == [lbr, '*', rbr] || endsWithL t [rbr, '*']

def makeTagsel (t : List Char) : TagSel :=
  if t == ['*'] then .starSel
  else if isWildcardTag t then
    if t == [lbr, '*', rbr, '*'] then .anyTag
    else if t == [lbr, rbr, '*'] then .noNs
    else if t.take 3 == [lbr, '*', rbr] then .anyNs (t.drop 3)
    else .nsOnly t.dropLast
  else if t.take 2 == [lbr, rbr] then .plain (String.mk (t.drop 2))
  else .plain (String.mk t)

def tagselMatch (ts : TagSel) (tag : String) : Bool :=
  match ts with
  | .starSel => true
  | .anyTag => true
  | .noNs => !(tag.data.head? == some lbr)
  | .anyNs n => tag.data == n || endsWithL tag.data (rbr :: n)
  | .nsOnly p => tag.data.take p.length == p
  | .plain t => tag == t

-- ===== selectors =====

inductive Selector : Type where
  | selfSel
  | starStep
  | parentStep
  | childStep (ts : TagSel)
  | descStep (ts : TagSel)
  | attrEx (key : String)
  | attrEq (key value : String)
  | attrNeq (key value : String)
  | tagEx (ts : TagSel)
  | tagText (ts : TagSel) (value : String) (neg : Bool)
  | textPred (value : String) (neg : Bool)
  | posPred (index : Int)
  | broken
deriving DecidableEq

-- ===== numbers =====

def numericTok : List Char → Bool
  | [] => false
  | c :: rest =>
    if c == '-' then !rest.isEmpty && rest.all Char.isDigit
    else (c :: rest).all Char.isDigit

def digitsVal (cs : List Char) : Nat :=
  cs.foldl (fun acc c => acc * 10 + (c.toNat - 48)) 0

def intOfNumeric (cs : List Char) : Int :=
  match cs with
  | c :: rest => if c == '-' then -(digitsVal rest : Int) else (digitsVal cs : Int)
  | [] => 0

def stripPyWs (cs : List Char) : List Char :=
  ((cs.dropWhile isPySpace).reverse.dropWhile isPySpace).reverse

/-- Python `int()` digit/underscore validation: underscores only strictly
between digits. -/
def usLoop : List Char → Bool → Bool
  | [], prevDigit => prevDigit
  | c :: rest, prevDigit =>
    if c == '_' then prevDigit && usLoop rest false
    else if c.isDigit then usLoop rest true
    else false

/-- Python `int(s)` over ASCII strings, `none` on `ValueError`. -/
def pyIntOf (cs : List Char) : Option Int :=
  let t := stripPyWs cs
  match t with
  | [] => none
  | c :: rest =>
    let (sgn, body) : Int × List Char :=
      if c == '+' then (1, rest) else if c == '-' then (-1, rest) else (1, t)
    if usLoop body false then some (sgn * (digitsVal (body.filter (fun d => !(d == '_'))) : Int))
    else none

-- ===== wrapper and compile =====

/-- The token text as Python would show it in a `KeyError`. -/
def tokText : XTok → String
  | .str d content => String.mk (d :: content ++ [d])
  | .opColonColon => "::"
  | .opSlashSlash => "//"
  | .opSlash => "/"
  | .opDotDot => ".."
  | .opParens => "()"
  | .opBangEq => "!="
  | .opDot => "."
  | .opStar => "*"
  | .opColon => ":"
  | .opLBrack => "["
  | .opRBrack => "]"
  | .opLParen => "("
  | .opRParen => ")"
  | .opAt => "@"
  | .opEq => "="
  | .tagTok t => String.mk t
  | .wsTok => ""

/-- The namespace check `xpath_tokenizer` applies when yielding a tag token
with no namespace map: a colon in a tag not starting with a brace is an
unresolvable prefix. -/
def wrapperCheck (t : XTok) : Except CubeError Unit :=
  match t with
  | .tagTok tg =>
    if tg.head? == some lbr then .ok ()
    else if tg.contains ':' then
      .error (.prefixNotFound (String.mk (tg.takeWhile (fun c => !(c == ':')))))
    else .ok ()
  | _ => .ok ()

/-- Signature contribution of one predicate token (`token[0] or "-"`). -/
def sigOf : XTok → List Char
  | .str _ _ => [sqc]
  | .opColonColon => [':', ':']
  | .opSlashSlash => ['/', '/']
  | .opSlash => ['/']
  | .opDotDot => ['.', '.']
  | .opParens => ['(', ')']
  | .opBangEq => ['!', '=']
  | .opDot => ['.']
  | .opStar => ['*']
  | .opColon => [':']
  | .opLBrack => ['[']
  | .opRBrack => [']']
  | .opLParen => ['(']
  | .opRParen => [')']
  | .opAt => ['@']
  | .opEq => ['=']
  | .tagTok _ => ['-']
  | .wsTok => ['-']

/-- Value contribution of one predicate token (`token[1]`, with quoted
tokens stripped to their content). -/
def predOf : XTok → List Char
  | .str _ content => content
  | .tagTok t => t
  | _ => []

/-- The predicate reader: consumes tokens up to the closing bracket,
accumulating the signature and the value list.  `none` when the stream is
exhausted (the stdlib then leaves a broken selector behind). -/
def predLoop : List XTok → List Char → List (List Char) →
    Except CubeError (Option (List Char × List (List Char) × List XTok))
  | [], _, _ => .ok none
  | t :: rest, sig, pred =>
    match wrapperCheck t with
    | .error e => .error e
    | .ok _ =>
      match t with
      | .opRBrack => .ok (some (sig, pred, rest))
      | .wsTok => predLoop rest sig pred
      | _ => predLoop rest (sig ++ sigOf t) (pred ++ [predOf t])

def sigAttrEx : List Char := ['@', '-']

def sigAttrEq : List Char := ['@', '-', '='] ++ [sqc]

def sigAttrNeq : List Char := ['@', '-', '!', '='] ++ [sqc]

def sigTag : List Char := ['-']

def sigSelfEq : List Char := ['.', '='] ++ [sqc]

def sigSelfNeq : List Char := ['.', '!', '='] ++ [sqc]

def sigTagEq : List Char := ['-', '='] ++ [sqc]

def sigTagNeq : List Char := ['-', '!', '='] ++ [sqc]

def sigLast : List Char := ['-', '(', ')']

def sigLastOff : List Char := ['-', '(', ')', '-']

/-- Predicate classification by signature, mirroring `prepare_predicate`. -/
def mkPred (sig : List Char) (pred : List (List Char)) : Except CubeError Selector :=
  if sig == sigAttrEx then .ok (.attrEx (String.mk (pred.getD 1 [])))
  else if sig == sigAttrEq then
    .ok (.attrEq (String.mk (pred.getD 1 [])) (String.mk (pred.getLastD [])))
  else if sig == sigAttrNeq then
    .ok (.attrNeq (String.mk (pred.getD 1 [])) (String.mk (pred.getLastD [])))
  else if sig == sigTag && !numericTok (pred.getD 0 []) then
    .ok (.tagEx (makeTagsel (pred.getD 0 [])))
  else if sig == sigSelfEq || sig == sigSelfNeq ||
      ((sig == sigTagEq || sig == sigTagNeq) && !numericTok (pred.getD 0 [])) then
    let tg := pred.getD 0 []
    let value := String.mk (pred.getLastD [])
    let neg := sig == sigSelfNeq || sig == sigTagNeq
    if tg.isEmpty then .ok (.textPred value neg)
    else .ok (.tagText (makeTagsel tg) value neg)
  else if sig == sigTag || sig == sigLast || sig == sigLastOff then
    if sig == sigTag then
      let index := intOfNumeric (pred.getD 0 []) - 1
      if index < 0 then .error .positionBound
      else .ok (.posPred index)
    else if !(pred.getD 0 [] == ['l', 'a', 's', 't']) then .error .unsupportedFunction
    else if sig == sigLastOff then
      match pyIntOf (pred.getD 2 []) with
      | none => .error .unsupportedExpr
      | some v =>
        let index := v - 1
        if index > -2 then .error .lastOffset
        else .ok (.posPred index)
    else .ok (.posPred (-1))
  else .error .invalidPredicate

/-- The selector-compilation loop of `iterfind`: the current token is
already namespace-checked; one slash is skipped between selectors. -/
def compileLoop : Nat → XTok → List XTok → List Selector →
    Except CubeError (List Selector)
  | 0, _, _, acc => .ok acc
  | Nat.succ fuel, t, toks, acc =>
    let step : Except CubeError (Selector × List XTok) ⊕ Except CubeError (List Selector) :=
      match t with
      | .tagTok tg => .inl (.ok (.childStep (makeTagsel tg), toks))
      | .wsTok => .inl (.ok (.childStep (.plain ""), toks))
      | .opStar => .inl (.ok (.starStep, toks))
      | .opDot => .inl (.ok (.selfSel, toks))
      | .opDotDot => .inl (.ok (.parentStep, toks))
      | .opSlashSlash =>
        match toks with
        | [] => .inr (.ok (acc ++ [.broken]))
        | nt :: toks2 =>
          match wrapperCheck nt with
          | .error e => .inr (.error e)
          | .ok _ =>
            match nt with
            | .opStar => .inl (.ok (.descStep .starSel, toks2))
            | .tagTok tg => .inl (.ok (.descStep (makeTagsel tg), toks2))
            | .wsTok => .inl (.ok (.descStep (makeTagsel []), toks2))
            | _ => .inr (.error .invalidDescendant)
      | .opLBrack =>
        match predLoop toks [] [] with
        | .error e => .inr (.error e)
        | .ok none => .inr (.ok (acc ++ [.broken]))
        | .ok (some (sig, pred, toks2)) =>
          match mkPred sig pred with
          | .error e => .inr (.error e)
          | .ok sel => .inl (.ok (sel, toks2))
      | other => .inr (.error (.keyError (tokText other)))
    match step with
    | .inr done => done
    | .inl (.error e) => .error e
    | .inl (.ok (sel, rest)) =>
      match rest with
      | [] => .ok (acc ++ [sel])
      | t2 :: rest2 =>
        match wrapperCheck t2 with
        | .error e => .error e
        | .ok _ =>
          if t2 == .opSlash then
            match rest2 with
            | [] => .ok (acc ++ [sel])
            | t3 :: rest3 =>
              match wrapperCheck t3 with
              | .error e => .error e
              | .ok _ => compileLoop fuel t3 rest3 (acc ++ [sel])
          else compileLoop fuel t2 rest2 (acc ++ [sel])

/-- Compile a relative path into its selector list. -/
def compilePath (cs : List Char) : Except CubeError (List Selector) :=
  match xtokens cs with
  | [] => .error .invalidPath
  | t :: rest =>
    match wrapperCheck t with
    | .error e => .error e
    | .ok _ => compileLoop (rest.length + 1) t rest []

-- ===== execution over positions =====

def nodeAt : XElem → List Nat → Option XElem
  | e, [] => some e
  | e, i :: p =>
    match (e.children.toList).get? i with
    | some c => nodeAt c p
    | none => none

mutual
/-- Positions (relative to the root that `p` addresses into) of all strict
descendants of an element, in document preorder. -/
def posDescE : XElem → List Nat → List (List Nat)
  | .mk _ _ _ cs _, p => posDescL cs p 0
def posDescL : XList → List Nat → Nat → List (List Nat)
  | .nil, _, _ => []
  | .cons c cs, p, i => (p ++ [i]) :: (posDescE c (p ++ [i]) ++ posDescL cs p (i + 1))
end

mutual
/-- Python `"".join(elem.itertext())`. -/
def itertextE : XElem → List Char
  | .mk _ _ x cs _ => (x.getD "").data ++ itertextL cs
def itertextL : XList → List Char
  | .nil => []
  | .cons c cs => itertextE c ++ ((c.tail.getD "").data) ++ itertextL cs
end

def childTags (e : XElem) : List XElem := e.children.toList

/-- Indices of the children of `e` matched by a tag selector. -/
def childIdxSel (e : XElem) (ts : TagSel) : List Nat :=
  ((childTags e).enum.filter (fun p => tagselMatch ts p.2.tag)).map (fun p => p.1)

def matchTagAt (root : XElem) (ts : TagSel) (q : List Nat) : Bool :=
  match nodeAt root q with
  | some e => tagselMatch ts e.tag
  | none => false

def dedupFirst : List (List Nat) → List (List Nat) → List (List Nat)
  | [], _ => []
  | p :: rest, seen =>
    if seen.contains p then dedupFirst rest seen
    else p :: dedupFirst rest (p :: seen)

/-- Python `lst[index]` with possibly negative index, compared against a
target value. -/
def pyIndexIs (l : List Nat) (index : Int) (target : Nat) : Bool :=
  if 0 ≤ index then l.get? index.toNat == some target
  else
    let k := (-index).toNat
    if k ≤ l.length then l.get? (l.length - k) == some target else false

/-- One selector applied to a result set of positions. -/
def execStep (root : XElem) (sel : Selector) (res : List (List Nat)) : List (List Nat) :=
  match sel with
  | .selfSel => res
  | .starStep =>
    res.flatMap (fun p =>
      match nodeAt root p with
      | some e => (List.range (childTags e).length).map (fun i => p ++ [i])
      | none => [])
  | .childStep ts =>
    res.flatMap (fun p =>
      match nodeAt root p with
      | some e => (childIdxSel e ts).map (fun i => p ++ [i])
      | none => [])
  | .descStep ts =>
    res.flatMap (fun p =>
      match nodeAt root p with
      | some e => (posDescE e p).filter (matchTagAt root ts)
      | none => [])
  | .parentStep =>
    dedupFirst ((res.filter (fun p => !p.isEmpty)).map (fun p => p.dropLast)) []
  | .attrEx key =>
    res.filter (fun p =>
      match nodeAt root p with
      | some e => (attrGet e key).isSome
      | none => false)
  | .attrEq key value =>
    res.filter (fun p =>
      match nodeAt root p with
      | some e => attrGet e key == some value
      | none => false)
  | .attrNeq key value =>
    res.filter (fun p =>
      match nodeAt root p with
      | some e =>
        match attrGet e key with
        | some v => !(v == value)
        | none => false
      | none => false)
  | .tagEx ts =>
    res.filter (fun p =>
      match nodeAt root p with
      | some e => !(childIdxSel e ts).isEmpty
      | none => false)
  | .tagText ts value neg =>
    res.filter (fun p =>
      match nodeAt root p with
      | some e =>
        (childIdxSel e ts).any (fun i =>
          match (childTags e).get? i with
          | some c =>
            if neg then !(String.mk (itertextE c) == value)
            else String.mk (itertextE c) == value
          | none => false)
      | none => false)
  | .textPred value neg =>
    res.filter (fun p =>
      match nodeAt root p with
      | some e =>
        if neg then !(String.mk (itertextE e) == value)
        else String.mk (itertextE e) == value
      | none => false)
  | .posPred index =>
    res.filter (fun p =>
      match p.getLast? with
      | none => false
      | some last =>
        match nodeAt root p.dropLast, nodeAt root p with
        | some par, some me =>
          pyIndexIs (childIdxSel par (makeTagsel me.tag.data)) index last
        | _, _ => false)
  | .broken => res

/-- Run a selector list; a broken selector raises the stdlib `TypeError`. -/
def execSel (root : XElem) : List Selector → List (List Nat) →
    Except CubeError (List (List Nat))
  | [], res => .ok res
  | s :: rest, res =>
    match s with
    | .broken => .error .brokenSelector
    | _ => execSel root rest (execStep root s res)

/-- The constructed lookup path of the cube manager. -/
def cubePath (name : String) : List Char :=
  (".//Cube[@name=" ++ sqs ++ name ++ sqs ++ "]").data

/-- Full model of `root.find(".//Cube[@name='<name>']")`: a found element,
a not-found `none`, or the propagated exception. -/
def etFindName (root : XElem) (name : String) : Except CubeError (Option XElem) :=
  match compilePath (cubePath name) with
  | .error e => .error e
  | .ok sels =>
    match execSel root sels [[]] with
    | .error e => .error e
    | .ok res => .ok ((res.head?).bind (nodeAt root))

deriving instance DecidableEq for Except

/-- Detail string of the 404 raised by `get_cube_by_name` and
`delete_cube`. -/
def notFoundDetail (name : String) (root : XElem) : String :=
  "Cube " ++ sqs ++ name ++ sqs ++ " not found. Available cubes: " ++
    joinComma (enumNames root)

/-- Detail string of the 400 raised by `create_cube` on a duplicate. -/
def conflictDetail (name : String) : String :=
  "Cube " ++ sqs ++ name ++ sqs ++ " already exists"

/-- Message of the `AttributeError` raised by `cube.getparent()`. -/
def getparentMsg : String :=
  sqs ++ "xml.etree.ElementTree.Element" ++ sqs ++ " object has no attribute " ++
    sqs ++ "getparent" ++ sqs

/-- Discriminator: outcome is a 404. -/
def resNotFound : Except CubeError XElem → Bool
  | .error (.notFound _) => true
  | _ => false

/-- Discriminator: outcome is a 400 conflict. -/
def resConflict : Except CubeError XElem → Bool
  | .error (.conflict _) => true
  | _ => false

/-- Discriminator: outcome is a success. -/
def resOk : Except CubeError XElem → Bool
  | .ok _ => true
  | _ => false

/-- Model of `CubeManager.get_cube_by_name` on a loaded tree: the
successful value is the matched subtree. -/
def get_cube_by_name (root : XElem) (name : String) : Except CubeError XElem :=
  match etFindName root name with
  | .error e => .error e
  | .ok (some c) => .ok c
  | .ok none => .error (.notFound (notFoundDetail name root))

/-- Model of `CubeManager.create_cube` on a loaded tree: the successful
value is the mutated tree, which the manager then formats and persists;
every error outcome happens before any write. -/
def create_cube (root : XElem) (r : CreateCubeRequest) : Except CubeError XElem :=
  match etFindName root r.cube_name with
  | .error e => .error e
  | .ok (some _) => .error (.conflict (conflictDetail r.cube_name))
  | .ok none => .ok (applyToSchema (appendCube r) root)

/-- Model of `CubeManager.delete_cube` on a loaded tree.  When the cube
is found the source calls `cube.getparent().remove(cube)`, and
`xml.etree.ElementTree` elements have no `getparent`, so the operation
raises `AttributeError` before any removal or write. -/
def delete_cube (root : XElem) (name : String) : Except CubeError XElem :=
  match etFindName root name with
  | .error e => .error e
  | .ok (some _) => .error (.attributeError getparentMsg)
  | .ok none => .error (.notFound (notFoundDetail name root))

/-- Python's `indent` helper: `"\n" + level*"  "`. -/
def indStr (level : Nat) : String :=
  "\n" ++ String.mk (List.replicate (2 * level) ' ')

mutual
/-- The recursive `indent` of `_format_xml`: elements with children get
their `text` and `tail` rewritten to canonical indentation whenever the
existing value is missing or whitespace-only; childless elements at a
positive level get only their `tail` rewritten. -/
def indentE (level : Nat) : XElem → XElem
  | XElem.mk t a x XList.nil tl =>
    if level != 0 && pyBlank tl then XElem.mk t a x XList.nil (some (indStr level))
    else XElem.mk t a x XList.nil tl
  | XElem.mk t a x (XList.cons c rest) tl =>
    XElem.mk t a
      (if pyBlank x then some (indStr level ++ "  ") else x)
      (XList.cons (indentE (level + 1) c) (indentL (level + 1) rest))
      (if pyBlank tl then some (indStr level) else tl)
/-- Indentation mapped over a child list. -/
def indentL (level : Nat) : XList → XList
  | XList.nil => XList.nil
  | XList.cons e es => XList.cons (indentE level e) (indentL level es)
end

/-- Model of `_format_xml`: `indent(root)` at level 0. -/
def format_xml (root : XElem) : XElem := indentE 0 root

/-- Drop the root tail: the XML parser discards whitespace after the
root element, so this is the one place where parse-of-serialize differs
from the in-memory tree. -/
def stripRootTail : XElem → XElem
  | XElem.mk t a x cs _ => XElem.mk t a x cs none

/-- The tree obtained by persisting (format + write) and re-parsing:
what the next operation's `_parse_xml` sees. -/
def persistLoad (t : XElem) : XElem := stripRootTail (format_xml t)

/-- Model of `CubeManager.update_cube`: strictly `delete_cube` followed
by `create_cube`, each a full read-modify-write cycle (the create phase
re-reads the file the delete phase persisted). -/
def update_cube (root : XElem) (name : String) (r : CreateCubeRequest) :
    Except CubeError XElem :=
  match delete_cube root name with
  | .ok t => create_cube (persistLoad t) r
  | .error e => .error e

/-- The create endpoint: pydantic validates the body before
`create_cube` runs. -/
def api_create (root : XElem) (r : CreateCubeRequest) : Except CubeError XElem :=
  if pydanticOK r then create_cube root r else .error .validationError

/-- The update endpoint: pydantic validates the body before
`update_cube` runs. -/
def api_update (root : XElem) (name : String) (r : CreateCubeRequest) :
    Except CubeError XElem :=
  if pydanticOK r then update_cube root name r else .error .validationError

/-- Escape of text/tail content (`_escape_cdata`). -/
def escTextC (c : Char) : String :=
  if c == '&' then "&amp;"
  else if c == '<' then "&lt;"
  else if c == '>' then "&gt;"
  else String.mk [c]

/-- Escape a full text string. -/
def escText (s : String) : String := String.join (s.data.map escTextC)

/-- Escape of attribute values (`_escape_attrib`). -/
def escAttrC (c : Char) : String :=
  if c == '&' then "&amp;"
  else if c == '<' then "&lt;"
  else if c == '>' then "&gt;"
  else if c == '"' then "&quot;"
  else if c == '\r' then "&#13;"
  else if c == '\n' then "&#10;"
  else if c == '\t' then "&#09;"
  else String.mk [c]

/-- Escape a full attribute value. -/
def escAttr (s : String) : String := String.join (s.data.map escAttrC)

/-- Serialised attribute block, in insertion order. -/
def attrsString (a : List (String × String)) : String :=
  String.join (a.map (fun p => " " ++ p.1 ++ "=" ++ "\"" ++ escAttr p.2 ++ "\""))

/-- Python truthiness of an optional string (`if text:`). -/
def truthyOpt : Option String → Bool
  | none => false
  | some s => !(s == "")

mutual
/-- Serialisation of one element, as `ElementTree._serialize_xml` writes
it: short form `<tag />` when there is no truthy text and no children,
long form otherwise, followed by the escaped tail. -/
def serializeE : XElem → String
  | XElem.mk t a x cs tl =>
    "<" ++ t ++ attrsString a ++
      (if truthyOpt x || !cs.isEmpty then
        ">" ++ escText (x.getD "") ++ serializeL cs ++ "</" ++ t ++ ">"
      else " />") ++
      escText (tl.getD "")
/-- Serialisation of a child list. -/
def serializeL : XList → String
  | XList.nil => ""
  | XList.cons e es => serializeE e ++ serializeL es
end

/-- The XML declaration `tree.write(..., xml_declaration=True,
encoding='utf-8')` emits. -/
def xmlDecl : String :=
  "<?xml version=" ++ sqs ++ "1.0" ++ sqs ++ " encoding=" ++ sqs ++ "utf-8" ++ sqs ++ "?>" ++ "\n"

/-- The exact byte content `tree.write` produces for a tree. -/
def serializeDoc (t : XElem) : String := xmlDecl ++ serializeE t

/-- Concrete cube element named `Sales`. -/
def cubeSales : XElem := XElem.mk "Cube" [("name", "Sales")] none XList.nil none

/-- Concrete cube element named `Orders`. -/
def cubeOrders : XElem := XElem.mk "Cube" [("name", "Orders")] none XList.nil none

/-- A schema holding the single cube `Sales`. -/
def demoTree : XElem :=
  XElem.mk "Schema" [] none (XList.cons cubeSales XList.nil) none

/-- A schema holding the cubes `Sales` and `Orders`. -/
def demoTree2 : XElem :=
  XElem.mk "Schema" [] none (XList.cons cubeSales (XList.cons cubeOrders XList.nil)) none

/-- A schema with no cubes. -/
def emptySchema : XElem := XElem.mk "Schema" [] none XList.nil none

/-- A schema whose only cube is nested two levels below the root. -/
def nestedTree : XElem :=
  XElem.mk "Schema" [] none
    (XList.cons
      (XElem.mk "Foo" [] none
        (XList.cons (XElem.mk "Cube" [("name", "N")] none XList.nil none) XList.nil) none)
      XList.nil)
    none

/-- Concrete level for sample requests. -/
def lvlYear : Level := ⟨"Year", "yr", "String", none⟩

/-- Concrete hierarchy for sample requests. -/
def hierTime : Hierarchy := ⟨none, true, none, [lvlYear]⟩

/-- Concrete dimension for sample requests. -/
def dimTime : Dimension := ⟨"Time", [hierTime]⟩

/-- Concrete measure for sample requests. -/
def msRev : Measure := ⟨"Revenue", "rev", "sum", none⟩

/-- Valid request creating cube `A`. -/
def reqA : CreateCubeRequest := ⟨"A", "fact_a", [dimTime], [msRev]⟩

/-- Valid request creating cube `B`. -/
def reqB : CreateCubeRequest := ⟨"B", "fact_b", [dimTime], [msRev]⟩

/-- Valid request creating cube `Orders` (the rename target of the
update scenario). -/
def reqOrders : CreateCubeRequest := ⟨"Orders", "fact_o", [dimTime], [msRev]⟩

/-- Valid request whose name collides with the existing `Sales` cube. -/
def reqSales : CreateCubeRequest := ⟨"Sales", "fact_s", [dimTime], [msRev]⟩

/-- Request with an empty cube name but well-shaped lists. -/
def reqEmptyName : CreateCubeRequest := ⟨"", "fact_t", [dimTime], [msRev]⟩

/-- Request with an empty table name but well-shaped lists. -/
def reqEmptyTable : CreateCubeRequest := ⟨"EmptyTable", "", [dimTime], [msRev]⟩

/-- Request with an empty dimensions list. -/
def reqNoDims : CreateCubeRequest := ⟨"C", "fact_c", [], [msRev]⟩

/-- A cube name containing a single quote. -/
def qName : String := "a" ++ sqs ++ "b"

/-- A schema containing a cube whose name holds a single quote. -/
def qTree : XElem :=
  XElem.mk "Schema" [] none
    (XList.cons (XElem.mk "Cube" [("name", qName)] none XList.nil none) XList.nil)
    none

/-- Valid request whose cube name holds a single quote. -/
def reqQ : CreateCubeRequest := ⟨qName, "fact_q", [dimTime], [msRev]⟩

/-- The file tree after one create endpoint call: the persisted
document when it succeeds, the untouched document when it fails. -/
def demoStep (t : XElem) (r : CreateCubeRequest) : XElem :=
  match api_create t r with
  | .ok u => persistLoad u
  | .error _ => t

/-- The tree produced by a successful create of `reqA` on the empty
schema. -/
def treeA : XElem :=
  XElem.mk "Schema" [] none (XList.cons (buildCube reqA) XList.nil) none

/-- Cube descendants of one node, in document order: the cubes sitting
under a schema node. -/
def cubesUnder (e : XElem) : List XElem := (descE e).filter isCube

/-- Wire-level hierarchy with every optional field omitted. -/
def rawH0 : RawHierarchy := ⟨none, none, none, [lvlYear]⟩

/-- Wire-level level with every optional field omitted. -/
def rawL0 : RawLevel := ⟨"Year", "yr", none, none⟩

/-- Wire-level measure with every optional field omitted. -/
def rawM0 : RawMeasure := ⟨"Revenue", "rev", none, none⟩

/-- Hierarchy with `allMemberName` supplied. -/
def hierAll : Hierarchy := ⟨none, true, some "All Time", [lvlYear]⟩

/-- Level with `uniqueMembers` supplied. -/
def lvlU : Level := ⟨"Year", "yr", "String", some true⟩

/-- Measure with `formatString` supplied. -/
def msF : Measure := ⟨"Revenue", "rev", "sum", some "#,###.00"⟩

/-- Hierarchy with its optional `name` supplied. -/
def hierN : Hierarchy := ⟨some "TimeHier", true, none, [lvlYear]⟩

/-- C1: delete of an existing cube is claimed to remove the node,
persist, and return the name; on the code, finding the cube leads
straight into `cube.getparent()`, which raises `AttributeError` on
`xml.etree.ElementTree` elements, so the operation fails before any
removal or write.  Evaluated at a document holding the cube `Sales`. -/
theorem c1_delete_raises_attribute_error :
    delete_cube demoTree "Sales" = .error (.attributeError getparentMsg) ∧
    enumNames demoTree = ["Sales"] ∧
    resNotFound (delete_cube demoTree "Sales") = false ∧
    resOk (delete_cube demoTree "Sales") = false := by decide

/-- C2: update is claimed to be delete-then-create with the compound
failure mode of losing the original cube; on the code the delete phase
raises `AttributeError` whenever the named cube exists, so update aborts
before the create phase, no write happens, and the original cube is
still present.  Evaluated at a document holding `Sales` and `Orders`
with a rename-to-`Orders` request. -/
theorem c2_update_blocked_by_delete_bug :
    pydanticOK reqOrders = true ∧
    api_update demoTree2 "Sales" reqOrders = .error (.attributeError getparentMsg) ∧
    (enumNames demoTree2).contains "Sales" = true ∧
    (enumNames demoTree2).contains "Orders" = true := by decide

/-- C10: there is a name containing a single quote on which get, delete
and the create conflict check all abort with the `ElementPath` predicate
error instead of performing an exact-match lookup: the outcome is
neither a success nor a `NotFound`. -/
theorem c10_quote_name_breaks_lookup :
    containsQuote qName = true ∧
    get_cube_by_name demoTree qName = .error .invalidPredicate ∧
    delete_cube demoTree qName = .error .invalidPredicate ∧
    create_cube demoTree reqQ = .error .invalidPredicate ∧
    resNotFound (get_cube_by_name demoTree qName) = false ∧
    resOk (get_cube_by_name demoTree qName) = false := by decide

/-- C3 counterexample: a document can contain a cube whose name holds a
single quote; a create request for that same name then fails with the
`ElementPath` predicate error, not with the claimed `ConflictError`. -/
theorem c3_counterexample :
    (descendants qTree).any (cubeNamed reqQ.cube_name) = true ∧
    create_cube qTree reqQ = .error .invalidPredicate ∧
    resConflict (create_cube qTree reqQ) = false := by decide

/-- C5 counterexample: requests with empty `cube_name` or empty
`table_name` pass pydantic (which only constrains the lists) and create
succeeds instead of failing with a `ValidationError`. -/
theorem c5_counterexample :
    reqEmptyName.cube_name = "" ∧
    resOk (api_create emptySchema reqEmptyName) = true ∧
    reqEmptyTable.table_name = "" ∧
    resOk (api_create emptySchema reqEmptyTable) = true := by decide

/-- C8 counterexample: on a document whose only cube sits two levels
below the Schema root (inside a `Foo` wrapper), the lookup used by get
matches it and enumerate counts it, although it is not a direct cube
child of Schema. -/
theorem c8_counterexample :
    resOk (get_cube_by_name nestedTree "N") = true ∧
    enumCount nestedTree = 1 ∧
    (nestedTree.children.toList.all (fun c => !isCube c)) = true := by decide

/-- C9 counterexample: there is a name holding a single quote (matching
no cube) on which get and delete abort with the `ElementPath` predicate
error instead of the claimed `NotFoundError` listing the known names. -/
theorem c9_counterexample :
    enumCount emptySchema = 0 ∧
    get_cube_by_name emptySchema qName = .error .invalidPredicate ∧
    resNotFound (get_cube_by_name emptySchema qName) = false ∧
    resNotFound (delete_cube emptySchema qName) = false := by decide

/-- Mutual induction principle for elements and child lists, packaged
from the auto-generated recursors. -/
theorem xInd {P : XElem → Prop} {Q : XList → Prop}
    (hmk : ∀ t a x cs tl, Q cs → P (XElem.mk t a x cs tl))
    (hnil : Q XList.nil)
    (hcons : ∀ e es, P e → Q es → Q (XList.cons e es)) :
    (∀ e, P e) ∧ (∀ l, Q l) :=
  ⟨fun e => @XElem.rec P Q hmk hnil hcons e, fun l => @XList.rec P Q hmk hnil hcons l⟩

/-- Spine induction on child lists alone. -/
theorem xlInd {Q : XList → Prop} (hnil : Q XList.nil)
    (hcons : ∀ e es, Q es → Q (XList.cons e es)) : ∀ l, Q l :=
  (@xInd (fun _ => True) Q (fun _ _ _ _ _ _ => trivial) hnil
    (fun e es _ h => hcons e es h)).2

/-- takeWhile over an append whose left part satisfies the predicate. -/
theorem takeWhile_append_all {p : Char → Bool} :
    ∀ {xs ys : List Char}, (∀ x ∈ xs, p x = true) →
      (xs ++ ys).takeWhile p = xs ++ ys.takeWhile p
  | [], _, _ => rfl
  | x :: xs, ys, h => by
    have hx : p x = true := h x (List.mem_cons_self x xs)
    simp only [List.cons_append, List.takeWhile_cons, hx]
    exact congrArg (x :: ·) (takeWhile_append_all (fun y hy => h y (List.mem_cons_of_mem x hy)))

/-- dropWhile over an append whose left part satisfies the predicate. -/
theorem dropWhile_append_all {p : Char → Bool} :
    ∀ {xs ys : List Char}, (∀ x ∈ xs, p x = true) →
      (xs ++ ys).dropWhile p = ys.dropWhile p
  | [], _, _ => rfl
  | x :: xs, ys, h => by
    have hx : p x = true := h x (List.mem_cons_self x xs)
    simp only [List.cons_append, List.dropWhile_cons, hx]
    exact dropWhile_append_all (fun y hy => h y (List.mem_cons_of_mem x hy))

/-- One fuelled tokenizer step on a successful `tokStep`. -/
theorem tokenizeAux_some (fuel : Nat) (c : Char) (rest r : List Char) (t : XTok)
    (hstep : tokStep (c :: rest) = (some t, r)) :
    tokenizeAux (fuel + 1) (c :: rest) = t :: tokenizeAux fuel r := by
  show (match tokStep (c :: rest) with
        | (some t, r) => t :: tokenizeAux fuel r
        | (none, r) => tokenizeAux fuel r) = t :: tokenizeAux fuel r
  rw [hstep]

/-- The interpolated path, spelled out as a character list. -/
theorem cubePath_eq (name : String) :
    cubePath name = '.' :: '/' :: '/' :: 'C' :: 'u' :: 'b' :: 'e' :: '[' :: '@' ::
      'n' :: 'a' :: 'm' :: 'e' :: '=' :: sqc :: (name.data ++ [sqc, ']']) := by
  simp [cubePath, sqs, String.data_append, List.append_assoc]

theorem cubePath_length (name : String) :
    (cubePath name).length = name.data.length + 17 := by
  rw [cubePath_eq]
  simp only [List.length_cons, List.length_append, List.length_nil]

/-- Tokenizing the quoted value of the predicate for a quote-free name. -/
theorem tokStep_quoted (name : String) (h : sqc ∉ name.data) :
    tokStep (sqc :: (name.data ++ [sqc, ']'])) =
      (some (XTok.str sqc name.data), [']']) := by
  have hall : ∀ x ∈ name.data, (!(x == sqc)) = true := by
    intro x hx
    simp only [Bool.not_eq_eq_eq_not, Bool.not_true, beq_eq_false_iff_ne]
    intro hxe
    exact h (hxe ▸ hx)
  have hdrop : (name.data ++ [sqc, ']']).dropWhile (fun d => !(d == sqc)) = [sqc, ']'] := by
    rw [dropWhile_append_all hall]
    rfl
  have htake : (name.data ++ [sqc, ']']).takeWhile (fun d => !(d == sqc)) = name.data := by
    rw [takeWhile_append_all hall]
    simp
  simp only [tokStep, beq_self_eq_true, if_true, hdrop, htake]

/-- The token stream of the interpolated path for a quote-free name. -/
theorem xtokens_cubePath (name : String) (h : sqc ∉ name.data) :
    xtokens (cubePath name) =
      [XTok.opDot, XTok.opSlashSlash, XTok.tagTok ['C', 'u', 'b', 'e'],
        XTok.opLBrack, XTok.opAt, XTok.tagTok ['n', 'a', 'm', 'e'], XTok.opEq,
        XTok.str sqc name.data, XTok.opRBrack] := by
  show tokenizeAux (cubePath name).length (cubePath name) = _
  rw [cubePath_length, cubePath_eq]
  calc tokenizeAux (name.data.length + 17)
        ('.' :: '/' :: '/' :: 'C' :: 'u' :: 'b' :: 'e' :: '[' :: '@' ::
          'n' :: 'a' :: 'm' :: 'e' :: '=' :: sqc :: (name.data ++ [sqc, ']']))
      = [XTok.opDot, XTok.opSlashSlash, XTok.tagTok ['C', 'u', 'b', 'e'],
          XTok.opLBrack, XTok.opAt, XTok.tagTok ['n', 'a', 'm', 'e'], XTok.opEq] ++
          tokenizeAux (name.data.length + 10) (sqc :: (name.data ++ [sqc, ']'])) := rfl
    _ = [XTok.opDot, XTok.opSlashSlash, XTok.tagTok ['C', 'u', 'b', 'e'],
          XTok.opLBrack, XTok.opAt, XTok.tagTok ['n', 'a', 'm', 'e'], XTok.opEq] ++
          (XTok.str sqc name.data :: tokenizeAux (name.data.length + 9) [']']) :=
        congrArg (fun l => [XTok.opDot, XTok.opSlashSlash, XTok.tagTok ['C', 'u', 'b', 'e'],
          XTok.opLBrack, XTok.opAt, XTok.tagTok ['n', 'a', 'm', 'e'], XTok.opEq] ++ l)
          (tokenizeAux_some (name.data.length + 9) sqc (name.data ++ [sqc, ']']) [']']
            (XTok.str sqc name.data) (tokStep_quoted name h))
    _ = _ := rfl

/-- Compiling the interpolated path for a quote-free name yields
self, descendant-Cube, attribute-equality. -/
theorem compile_cubePath (name : String) (h : sqc ∉ name.data) :
    compilePath (cubePath name) =
      .ok [Selector.selfSel, Selector.descStep (TagSel.plain "Cube"),
        Selector.attrEq "name" name] := by
  show (match xtokens (cubePath name) with
        | [] => Except.error CubeError.invalidPath
        | t :: rest =>
          match wrapperCheck t with
          | .error e => .error e
          | .ok _ => compileLoop (rest.length + 1) t rest []) = _
  rw [xtokens_cubePath name h]
  show compileLoop 9 XTok.opDot
      [XTok.opSlashSlash, XTok.tagTok ['C', 'u', 'b', 'e'], XTok.opLBrack, XTok.opAt,
        XTok.tagTok ['n', 'a', 'm', 'e'], XTok.opEq, XTok.str sqc name.data,
        XTok.opRBrack] [] = _
  show Except.ok [Selector.selfSel, Selector.descStep (TagSel.plain "Cube"),
    Selector.attrEq (String.mk ['n', 'a', 'm', 'e']) (String.mk name.data)] = _
  rw [show String.mk name.data = name from rfl]

/-- Descendant positions with a nonempty base are the shifted positions
with an empty base. -/
theorem posDesc_shift :
    (∀ e : XElem, ∀ p : List Nat, posDescE e p = (posDescE e []).map (fun q => p ++ q)) ∧
    (∀ cs : XList, ∀ (p : List Nat) (i : Nat),
      posDescL cs p i = (posDescL cs [] i).map (fun q => p ++ q)) := by
  refine xInd ?_ ?_ ?_
  · intro t a x cs tl hQ p
    exact hQ p 0
  · intro p i
    rfl
  · intro c cs hP hQ p i
    show (p ++ [i]) :: (posDescE c (p ++ [i]) ++ posDescL cs p (i + 1)) =
      (([i] : List Nat) :: (posDescE c [i] ++ posDescL cs [] (i + 1))).map (fun q => p ++ q)
    simp only [List.map_cons, List.map_append]
    rw [hP (p ++ [i]), hP [i], hQ p (i + 1)]
    simp [List.map_map, Function.comp, List.append_assoc]

/-- Looking up the descendant positions of an element in that element
gives exactly its structural descendants, in the same order. -/
theorem mapNodes :
    (∀ e : XElem, (posDescE e []).map (fun q => nodeAt e q) = (descE e).map some) ∧
    (∀ cs : XList, ∀ (par : XElem) (i : Nat),
      (∀ j, cs.toList.get? j = par.children.toList.get? (i + j)) →
      (posDescL cs [] i).map (fun q => nodeAt par q) = (descL cs).map some) := by
  refine xInd ?_ ?_ ?_
  · intro t a x cs tl hQ
    exact hQ (XElem.mk t a x cs tl) 0 (fun j => by simp [XElem.children, Nat.zero_add])
  · intro par i hyp
    rfl
  · intro c cs hP hQ par i hyp
    have hget0 : par.children.toList.get? i = some c := (hyp 0).symm
    have h0 : nodeAt par [i] = some c := by
      show (match par.children.toList.get? i with
            | some c2 => nodeAt c2 [] | none => none) = some c
      rw [hget0]
      rfl
    have h1 : (posDescE c [i]).map (fun q => nodeAt par q) = (descE c).map some := by
      rw [posDesc_shift.1 c [i], List.map_map]
      have hpt : ∀ q ∈ posDescE c [], ((fun q => nodeAt par q) ∘ (fun q => [i] ++ q)) q =
          nodeAt c q := by
        intro q _
        show (match par.children.toList.get? i with
              | some c2 => nodeAt c2 q | none => none) = nodeAt c q
        rw [hget0]
      rw [List.map_congr_left hpt]
      exact hP
    have h2 : (posDescL cs [] (i + 1)).map (fun q => nodeAt par q) = (descL cs).map some := by
      refine hQ par (i + 1) (fun j => ?_)
      have hj := hyp (j + 1)
      rw [show i + 1 + j = i + (j + 1) by omega]
      exact hj
    have hL : posDescL (XList.cons c cs) [] i =
        [i] :: (posDescE c [i] ++ posDescL cs [] (i + 1)) := rfl
    have hD : descL (XList.cons c cs) = c :: (descE c ++ descL cs) := rfl
    rw [hL, hD]
    simp only [List.map_cons, List.map_append]
    rw [h0, h1, h2]

/-- Filtering positions by a node predicate matches filtering the
corresponding nodes. -/
theorem filter_map_transfer (f : List Nat → Option XElem) (P : List Nat → Bool)
    (Q : XElem → Bool) (hPQ : ∀ p e, f p = some e → P p = Q e) :
    ∀ (l : List (List Nat)) (m : List XElem), l.map f = m.map some →
      (l.filter P).map f = (m.filter Q).map some := by
  intro l
  induction l with
  | nil =>
    intro m hm
    cases m with
    | nil => rfl
    | cons e m2 => simp at hm
  | cons p l2 ih =>
    intro m hm
    cases m with
    | nil => simp at hm
    | cons e m2 =>
      simp only [List.map_cons, List.cons.injEq] at hm
      obtain ⟨h1, h2⟩ := hm
      rw [List.filter_cons, List.filter_cons, hPQ p e h1]
      cases hq : Q e
      · simp only [Bool.false_eq_true, if_false]
        exact ih m2 h2
      · simp only [if_true]
        simp only [List.map_cons, h1]
        exact congrArg (List.cons (some e)) (ih m2 h2)

/-- The first position's node is the first corresponding node. -/
theorem head_map_transfer (f : List Nat → Option XElem) :
    ∀ (l : List (List Nat)) (m : List XElem), l.map f = m.map some →
      l.head?.bind f = m.head? := by
  intro l m hm
  cases l with
  | nil =>
    cases m with
    | nil => rfl
    | cons e m2 => simp at hm
  | cons p l2 =>
    cases m with
    | nil => simp at hm
    | cons e m2 =>
      simp only [List.map_cons, List.cons.injEq] at hm
      show f p = some e
      exact hm.1

/-- The bridge: for a name without a single quote, the full ElementPath
machine on the interpolated path agrees with the direct first-match
search over Cube descendants. -/
theorem etFind_no_quote (root : XElem) (name : String)
    (h : containsQuote name = false) :
    etFindName root name = .ok (findCube root name) := by
  have hnotin : sqc ∉ name.data := by
    intro hmem
    have h2 : containsQuote name = true := List.elem_eq_true_of_mem hmem
    rw [h2] at h
    cases h
  unfold etFindName
  rw [compile_cubePath name hnotin]
  have hstep2 : execStep root (Selector.descStep (TagSel.plain "Cube")) [[]] =
      (posDescE root []).filter (matchTagAt root (TagSel.plain "Cube")) := by
    simp [execStep, nodeAt]
  have hsel : execSel root [Selector.selfSel, Selector.descStep (TagSel.plain "Cube"),
      Selector.attrEq "name" name] [[]] =
      .ok (((posDescE root []).filter (matchTagAt root (TagSel.plain "Cube"))).filter
        (fun p => match nodeAt root p with
          | some e => attrGet e "name" == some name
          | none => false)) := by
    show execSel root [Selector.attrEq "name" name]
        (execStep root (Selector.descStep (TagSel.plain "Cube")) [[]]) = _
    rw [hstep2]
    rfl
  show (match execSel root [Selector.selfSel, Selector.descStep (TagSel.plain "Cube"),
        Selector.attrEq "name" name] [[]] with
      | .error e => Except.error e
      | .ok res => Except.ok ((res.head?).bind (nodeAt root))) =
    Except.ok (findCube root name)
  rw [hsel]
  show Except.ok ((((posDescE root []).filter (matchTagAt root (TagSel.plain "Cube"))).filter
      (fun p => match nodeAt root p with
        | some e => attrGet e "name" == some name
        | none => false)).head?.bind (nodeAt root)) = _
  have hmap1 : ((posDescE root []).filter (matchTagAt root (TagSel.plain "Cube"))).map
      (fun q => nodeAt root q) =
      ((descE root).filter (fun e => tagselMatch (TagSel.plain "Cube") e.tag)).map some := by
    refine filter_map_transfer _ _ _ ?_ _ _ (mapNodes.1 root)
    intro p e hf
    simp [matchTagAt, hf]
  have hmap2 : (((posDescE root []).filter (matchTagAt root (TagSel.plain "Cube"))).filter
      (fun p => match nodeAt root p with
        | some e => attrGet e "name" == some name
        | none => false)).map (fun q => nodeAt root q) =
      (((descE root).filter (fun e => tagselMatch (TagSel.plain "Cube") e.tag)).filter
        (fun e => attrGet e "name" == some name)).map some := by
    refine filter_map_transfer _ _ _ ?_ _ _ hmap1
    intro p e hf
    simp [hf]
  have hhead := head_map_transfer (fun q => nodeAt root q) _ _ hmap2
  rw [hhead, List.filter_filter]
  unfold findCube descendants
  congr 2
  apply List.filter_congr
  intro a _
  simp [cubeNamed, isCube, tagselMatch, Bool.and_comm]

/-- For a quote-free name, `get_cube_by_name` reduces to the direct
first-match search. -/
theorem get_quoteFree (root : XElem) (name : String)
    (h : containsQuote name = false) :
    get_cube_by_name root name =
      match findCube root name with
      | some c => Except.ok c
      | none => Except.error (.notFound (notFoundDetail name root)) := by
  unfold get_cube_by_name
  rw [etFind_no_quote root name h]
  cases findCube root name <;> rfl

/-- For a quote-free name, `delete_cube` reduces to the direct search. -/
theorem delete_quoteFree (root : XElem) (name : String)
    (h : containsQuote name = false) :
    delete_cube root name =
      match findCube root name with
      | some _ => Except.error (.attributeError getparentMsg)
      | none => Except.error (.notFound (notFoundDetail name root)) := by
  unfold delete_cube
  rw [etFind_no_quote root name h]
  cases findCube root name <;> rfl

/-- For a quote-free name, `create_cube` reduces to the direct search. -/
theorem create_quoteFree (root : XElem) (r : CreateCubeRequest)
    (h : containsQuote r.cube_name = false) :
    create_cube root r =
      match findCube root r.cube_name with
      | some _ => Except.error (.conflict (conflictDetail r.cube_name))
      | none => Except.ok (applyToSchema (appendCube r) root) := by
  unfold create_cube
  rw [etFind_no_quote root r.cube_name h]
  cases findCube root r.cube_name <;> rfl


/-- A run of spaces is Python-blank. -/
theorem all_isPySpace_replicate (n : Nat) :
    (List.replicate n ' ').all isPySpace = true := by
  induction n with
  | zero => rfl
  | succ n ih => simp [List.replicate_succ, List.all_cons, isPySpace, ih]

/-- The canonical indentation string is Python-blank. -/
theorem pyBlank_indStr (l : Nat) : pyBlank (some (indStr l)) = true := by
  simp [pyBlank, indStr, isPySpace, all_isPySpace_replicate]

/-- The canonical text string (indentation plus two spaces) is
Python-blank. -/
theorem pyBlank_indStr_text (l : Nat) : pyBlank (some (indStr l ++ "  ")) = true := by
  simp [pyBlank, indStr, isPySpace, all_isPySpace_replicate]

/-- The formatter is idempotent on every element and child list: all the
values it writes are whitespace-only, so a second pass rewrites them to
themselves. -/
theorem indent_idem :
    (∀ e, ∀ l, indentE l (indentE l e) = indentE l e) ∧
    (∀ xs, ∀ l, indentL l (indentL l xs) = indentL l xs) := by
  refine xInd ?_ ?_ ?_
  · intro t a x cs tl ih lvl
    cases cs with
    | nil =>
      by_cases h : (lvl != 0 && pyBlank tl) = true
      · simp [indentE, h, pyBlank_indStr, Bool.and_eq_true] at h ⊢
      · simp [indentE, h]
    | cons c rest =>
      have ihc := ih (lvl + 1)
      by_cases hx : pyBlank x = true <;> by_cases ht : pyBlank tl = true <;>
        simpa [indentE, indentL, hx, ht, pyBlank_indStr, pyBlank_indStr_text] using ihc
  · intro _; simp [indentL]
  · intro e es ihe ihes lvl
    simp [indentL, ihe, ihes]

/-- One formatted persist followed by a parse and a second format yields
the same tree: the parser only loses the root tail, which the formatter
reconstitutes, and the formatter is idempotent below the root. -/
theorem format_strip_format (t : XElem) (h : t.tail = none) :
    format_xml (stripRootTail (format_xml t)) = format_xml t := by
  cases t with
  | mk tg a x cs tl =>
    simp [XElem.tail] at h
    subst h
    cases cs with
    | nil => simp [format_xml, indentE, stripRootTail]
    | cons c rest =>
      have ihc := indent_idem.1 c 1
      have ihr := indent_idem.2 rest 1
      have hb : pyBlank none = true := rfl
      by_cases hx : pyBlank x = true <;>
        simp [format_xml, indentE, indentL, stripRootTail, hx, hb,
          pyBlank_indStr, pyBlank_indStr_text, ihc, ihr]

/-- C7: a load, format and persist cycle with no mutation is
byte-stable: re-serialising the formatted re-parse of a formatted
document reproduces the previously persisted bytes (the root element of
a parsed document carries no tail, hence the hypothesis). -/
theorem c7_format_persist_idempotent (t : XElem) (h : t.tail = none) :
    serializeDoc (format_xml (persistLoad t)) = serializeDoc (format_xml t) :=
  congrArg serializeDoc (format_strip_format t h)

/-- C7 witness: the cycle theorem applied to the concrete `Sales`
document. -/
theorem c7_witness :
    demoTree.tail = none ∧
    serializeDoc (format_xml (persistLoad demoTree)) = serializeDoc (format_xml demoTree) :=
  ⟨rfl, c7_format_persist_idempotent demoTree rfl⟩

/-- C6: the built cube subtree renders `hasAll` as `"true"` when the
wire request leaves it unspecified, renders `type` as `"String"` and
`aggregator` as `"sum"` when unspecified, and emits each optional
attribute (`allMemberName`, `uniqueMembers`, `formatString`, hierarchy
`name`) only when the corresponding field is present; an omitted
optional field produces no attribute at all. -/
theorem c6_defaults_and_optionals :
    (∀ r : RawHierarchy, r.hasAll = none →
      attrGet (buildHierarchy r.parse) "hasAll" = some "true") ∧
    (∀ r : RawLevel, r.type = none →
      attrGet (buildLevel r.parse) "type" = some "String") ∧
    (∀ r : RawMeasure, r.aggregator = none →
      attrGet (buildMeasure r.parse) "aggregator" = some "sum") ∧
    (∀ h : Hierarchy, h.allMemberName = none →
      attrGet (buildHierarchy h) "allMemberName" = none) ∧
    (∀ (h : Hierarchy) (v : String),
      attrGet (buildHierarchy h) "allMemberName" = some v → h.allMemberName ≠ none) ∧
    (∀ l : Level, l.uniqueMembers = none →
      attrGet (buildLevel l) "uniqueMembers" = none) ∧
    (∀ (l : Level) (v : String),
      attrGet (buildLevel l) "uniqueMembers" = some v → l.uniqueMembers ≠ none) ∧
    (∀ m : Measure, m.formatString = none →
      attrGet (buildMeasure m) "formatString" = none) ∧
    (∀ (m : Measure) (v : String),
      attrGet (buildMeasure m) "formatString" = some v → m.formatString ≠ none) ∧
    (∀ h : Hierarchy, h.name = none →
      attrGet (buildHierarchy h) "name" = none) ∧
    (∀ (h : Hierarchy) (v : String),
      attrGet (buildHierarchy h) "name" = some v → h.name ≠ none) := by
  refine ⟨?_, ?_, ?_, ?_, ?_, ?_, ?_, ?_, ?_, ?_, ?_⟩
  · intro r hr
    cases hn : r.name with
    | none => simp [buildHierarchy, RawHierarchy.parse, attrGet, findAttr, hr, hn, pyBool]
    | some s =>
      by_cases hs : (s == "") = true <;>
        simp [buildHierarchy, RawHierarchy.parse, attrGet, findAttr, hr, hn, hs, pyBool]
  · intro r hr
    simp [buildLevel, RawLevel.parse, attrGet, findAttr, hr]
  · intro r hr
    simp [buildMeasure, RawMeasure.parse, attrGet, findAttr, hr]
  · intro h hh
    cases hn : h.name with
    | none => simp [buildHierarchy, attrGet, findAttr, hh, hn]
    | some s =>
      by_cases hs : (s == "") = true <;>
        simp [buildHierarchy, attrGet, findAttr, hh, hn, hs]
  · intro h v hv hn
    cases hname : h.name with
    | none => simp [buildHierarchy, attrGet, findAttr, hn, hname] at hv
    | some s =>
      by_cases hs : (s == "") = true <;>
        simp [buildHierarchy, attrGet, findAttr, hn, hname, hs] at hv
  · intro l hl
    simp [buildLevel, attrGet, findAttr, hl]
  · intro l v hv hn
    simp [buildLevel, attrGet, findAttr, hn] at hv
  · intro m hm
    simp [buildMeasure, attrGet, findAttr, hm]
  · intro m v hv hn
    simp [buildMeasure, attrGet, findAttr, hn] at hv
  · intro h hh
    cases ha : h.allMemberName with
    | none => simp [buildHierarchy, attrGet, findAttr, hh, ha]
    | some s =>
      by_cases hs : (s == "") = true <;>
        simp [buildHierarchy, attrGet, findAttr, hh, ha, hs]
  · intro h v hv hn
    cases ha : h.allMemberName with
    | none => simp [buildHierarchy, attrGet, findAttr, hn, ha] at hv
    | some s =>
      by_cases hs : (s == "") = true <;>
        simp [buildHierarchy, attrGet, findAttr, hn, ha, hs] at hv

/-- C6 witness: every default and optional-absence property of the
builder evaluated at concrete request fragments. -/
theorem c6_witness :
    attrGet (buildHierarchy rawH0.parse) "hasAll" = some "true" ∧
    attrGet (buildLevel rawL0.parse) "type" = some "String" ∧
    attrGet (buildMeasure rawM0.parse) "aggregator" = some "sum" ∧
    attrGet (buildHierarchy hierTime) "allMemberName" = none ∧
    hierAll.allMemberName ≠ none ∧
    attrGet (buildLevel lvlYear) "uniqueMembers" = none ∧
    lvlU.uniqueMembers ≠ none ∧
    attrGet (buildMeasure msRev) "formatString" = none ∧
    msF.formatString ≠ none ∧
    attrGet (buildHierarchy hierTime) "name" = none ∧
    hierN.name ≠ none := by
  have h := c6_defaults_and_optionals
  exact ⟨h.1 rawH0 rfl, h.2.1 rawL0 rfl, h.2.2.1 rawM0 rfl, h.2.2.2.1 hierTime rfl,
    h.2.2.2.2.1 hierAll "All Time" (by decide),
    h.2.2.2.2.2.1 lvlYear rfl,
    h.2.2.2.2.2.2.1 lvlU "true" (by decide),
    h.2.2.2.2.2.2.2.1 msRev rfl,
    h.2.2.2.2.2.2.2.2.1 msF "#,###.00" (by decide),
    h.2.2.2.2.2.2.2.2.2.1 hierTime rfl,
    h.2.2.2.2.2.2.2.2.2.2 hierN "TimeHier" (by decide)⟩

/-- Appending one element at the end of a forest appends its preorder
listing at the end of the traversal. -/
theorem descL_snoc (c : XElem) : ∀ l, descL (XList.snoc l c) = descL l ++ c :: descE c := by
  refine xlInd ?_ ?_
  · simp [XList.snoc, descL]
  · intro e es ih
    simp [XList.snoc, descL, ih]

/-- Membership in the preorder listing of a forest built from a list:
either one of the listed elements or a descendant of one. -/
theorem mem_descL_ofList (e : XElem) :
    ∀ L : List XElem, e ∈ descL (XList.ofList L) ↔ ∃ c ∈ L, e = c ∨ e ∈ descE c := by
  intro L
  induction L with
  | nil => simp [XList.ofList, descL]
  | cons c rest ih =>
    simp only [XList.ofList, descL, List.mem_cons, List.mem_append, ih]
    constructor
    · rintro (h | h | h)
      · exact ⟨c, by simp, Or.inl h⟩
      · exact ⟨c, by simp, Or.inr h⟩
      · rcases h with ⟨d, hd, hh⟩
        exact ⟨d, by simp [hd], hh⟩
    · rintro ⟨d, hd, hh⟩
      rcases hd with rfl | hd
      · rcases hh with h | h
        · exact Or.inl h
        · exact Or.inr (Or.inl h)
      · exact Or.inr (Or.inr ⟨d, hd, hh⟩)

/-- A built level has no children. -/
theorem descE_buildLevel (l : Level) : descE (buildLevel l) = [] := by
  simp [buildLevel, descE, descL]

/-- A built measure has no children. -/
theorem descE_buildMeasure (m : Measure) : descE (buildMeasure m) = [] := by
  simp [buildMeasure, descE, descL]

/-- Every strict descendant of a built hierarchy is a built level. -/
theorem mem_descE_buildHierarchy (e : XElem) (h : Hierarchy)
    (he : e ∈ descE (buildHierarchy h)) : ∃ l ∈ h.levels, e = buildLevel l := by
  simp only [buildHierarchy, descE] at he
  rw [mem_descL_ofList] at he
  rcases he with ⟨c, hc, rfl | hc2⟩
  · rcases List.mem_map.mp hc with ⟨l, hl, rfl⟩
    exact ⟨l, hl, rfl⟩
  · rcases List.mem_map.mp hc with ⟨l, hl, rfl⟩
    rw [descE_buildLevel] at hc2
    exact absurd hc2 (List.not_mem_nil e)

/-- Every strict descendant of a built dimension is a built hierarchy
or a built level. -/
theorem mem_descE_buildDimension (e : XElem) (d : Dimension)
    (he : e ∈ descE (buildDimension d)) :
    (∃ h ∈ d.hierarchies, e = buildHierarchy h) ∨
    (∃ h ∈ d.hierarchies, ∃ l ∈ h.levels, e = buildLevel l) := by
  simp only [buildDimension, descE] at he
  rw [mem_descL_ofList] at he
  rcases he with ⟨c, hc, rfl | hc2⟩
  · rcases List.mem_map.mp hc with ⟨h, hh, rfl⟩
    exact Or.inl ⟨h, hh, rfl⟩
  · rcases List.mem_map.mp hc with ⟨h, hh, rfl⟩
    rcases mem_descE_buildHierarchy e h hc2 with ⟨l, hl, rfl⟩
    exact Or.inr ⟨h, hh, l, hl, rfl⟩

/-- The tag of every strict descendant of a built cube subtree is one of
the builder tags; in particular it is neither `Cube` nor `Schema`. -/
theorem buildCube_desc_tags (r : CreateCubeRequest) (e : XElem)
    (he : e ∈ descE (buildCube r)) : e.tag ≠ "Cube" ∧ e.tag ≠ "Schema" := by
  simp only [buildCube, descE, descL] at he
  rcases List.mem_cons.mp he with rfl | he2
  · simp [XElem.tag]
  · have he3 : e ∈ descL (XList.ofList
        (r.dimensions.map buildDimension ++ r.measures.map buildMeasure)) := by
      simpa [descE, descL] using he2
    rw [mem_descL_ofList] at he3
    rcases he3 with ⟨c, hc, hh⟩
    rcases List.mem_append.mp hc with hc | hc
    · rcases List.mem_map.mp hc with ⟨d, _, rfl⟩
      rcases hh with rfl | hh
      · simp [buildDimension, XElem.tag]
      · rcases mem_descE_buildDimension e d hh with ⟨h, _, rfl⟩ | ⟨h, _, l, _, rfl⟩
        · simp [buildHierarchy, XElem.tag]
        · simp [buildLevel, XElem.tag]
    · rcases List.mem_map.mp hc with ⟨m, _, rfl⟩
      rcases hh with rfl | hh
      · simp [buildMeasure, XElem.tag]
      · rw [descE_buildMeasure] at hh
        exact absurd hh (List.not_mem_nil e)

/-- The built cube is a `Cube` element. -/
theorem buildCube_isCube (r : CreateCubeRequest) : isCube (buildCube r) = true := by
  simp [buildCube, isCube, XElem.tag]

/-- The built cube is not a `Schema` element and contains none. -/
theorem buildCube_noSchema (r : CreateCubeRequest) :
    isSchema (buildCube r) = false ∧ ∀ e ∈ descE (buildCube r), isSchema e = false := by
  constructor
  · simp [buildCube, isSchema, XElem.tag]
  · intro e he
    have := (buildCube_desc_tags r e he).2
    simp [isSchema, this]

/-- Characterisation of a failed `.//Schema` search: no descendant in
the traversal carries the `Schema` tag. -/
theorem findSchema_none :
    (∀ e, findSchemaE e = none ↔ ∀ x ∈ descE e, isSchema x = false) ∧
    (∀ l, findSchemaL l = none ↔ ∀ x ∈ descL l, isSchema x = false) := by
  refine xInd ?_ ?_ ?_
  · intro t a x cs tl ih
    simpa [findSchemaE, descE] using ih
  · simp [findSchemaL, descL]
  · intro e es ihe ihes
    cases hs : isSchema e with
    | true => simp [findSchemaL, descL, hs]
    | false =>
      cases hfe : findSchemaE e with
      | some s =>
        have hnot : ¬∀ x ∈ descL (XList.cons e es), isSchema x = false := by
          intro hall
          have hsub : ∀ x ∈ descE e, isSchema x = false := by
            intro x hx
            exact hall x (by simp [descL, hx])
          rw [← ihe] at hsub
          rw [hsub] at hfe
          exact Option.noConfusion hfe
        have hne : findSchemaL (XList.cons e es) ≠ none := by
          simp [findSchemaL, hs, hfe]
        constructor
        · intro h; exact absurd h hne
        · intro h; exact absurd h hnot
      | none =>
        have hde : ∀ x ∈ descE e, isSchema x = false := ihe.mp hfe
        have hL : findSchemaL (XList.cons e es) = findSchemaL es := by
          simp [findSchemaL, hs, hfe]
        rw [hL, ihes]
        constructor
        · intro hall x hx
          simp only [descL, List.mem_cons, List.mem_append] at hx
          rcases hx with rfl | hx | hx
          · exact hs
          · exact hde x hx
          · exact hall x hx
        · intro hall x hx
          exact hall x (by simp [descL, hx])

/-- Relation between the replace-first-``Schema`` traversal and the
find-first-``Schema`` traversal for a tag-preserving mutation: a failed
replacement means a failed find, and a successful replacement rewrites
exactly the node the find returns. -/
theorem replSchema_spec (f : XElem → XElem) (hf : ∀ e, (f e).tag = e.tag) :
    (∀ e, (replSchemaE f e = none → findSchemaE e = none) ∧
      (∀ e2, replSchemaE f e = some e2 → e2.tag = e.tag ∧
        ∃ s, findSchemaE e = some s ∧ findSchemaE e2 = some (f s))) ∧
    (∀ l, (replSchemaL f l = none → findSchemaL l = none) ∧
      (∀ l2, replSchemaL f l = some l2 →
        ∃ s, findSchemaL l = some s ∧ findSchemaL l2 = some (f s))) := by
  refine xInd ?_ ?_ ?_
  · intro t a x cs tl ih
    constructor
    · intro h
      cases hr : replSchemaL f cs with
      | some cs2 => simp [replSchemaE, hr] at h
      | none => simpa [findSchemaE] using ih.1 hr
    · intro e2 h
      cases hr : replSchemaL f cs with
      | some cs2 =>
        simp only [replSchemaE, hr, Option.some.injEq] at h
        subst h
        rcases ih.2 cs2 hr with ⟨s, h1, h2⟩
        exact ⟨rfl, s, by simpa [findSchemaE] using h1, by simpa [findSchemaE] using h2⟩
      | none => simp [replSchemaE, hr] at h
  · constructor
    · intro _; simp [findSchemaL]
    · intro l2 h; simp [replSchemaL] at h
  · intro e es ihe ihes
    cases hs : isSchema e with
    | true =>
      constructor
      · intro h; simp [replSchemaL, hs] at h
      · intro l2 h
        simp [replSchemaL, hs] at h
        subst h
        refine ⟨e, by simp [findSchemaL, hs], ?_⟩
        have hfe : isSchema (f e) = true := by
          simpa [isSchema, hf e] using hs
        simp [findSchemaL, hfe]
    | false =>
      cases hre : replSchemaE f e with
      | some e2 =>
        rcases ihe.2 e2 hre with ⟨htag, s, h1, h2⟩
        constructor
        · intro h; simp [replSchemaL, hs, hre] at h
        · intro l2 h
          simp [replSchemaL, hs, hre] at h
          subst h
          have hs2 : isSchema e2 = false := by
            rw [isSchema, htag]
            simpa [isSchema] using hs
          exact ⟨s, by simp [findSchemaL, hs, h1], by simp [findSchemaL, hs2, h2]⟩
      | none =>
        have hfe : findSchemaE e = none := ihe.1 hre
        cases hrl : replSchemaL f es with
        | some es2 =>
          rcases ihes.2 es2 hrl with ⟨s, h1, h2⟩
          constructor
          · intro h; simp [replSchemaL, hs, hre, hrl] at h
          · intro l2 h
            simp [replSchemaL, hs, hre, hrl] at h
            subst h
            exact ⟨s, by simp [findSchemaL, hs, hfe, h1], by simp [findSchemaL, hs, hfe, h2]⟩
        | none =>
          constructor
          · intro _
            simp [findSchemaL, hs, hfe, ihes.1 hrl]
          · intro l2 h; simp [replSchemaL, hs, hre, hrl] at h

/-- The append mutation used by create preserves the tag of the node it
mutates. -/
theorem appendCube_tag (r : CreateCubeRequest) (e : XElem) :
    (appendCube r e).tag = e.tag := by
  cases e with
  | mk t a x cs tl => simp [appendCube, XElem.tag]

/-- The node `create_cube` mutates is exactly the node `schemaOf`
selects: appending the built cube inside the tree commutes with the
schema selection. -/
theorem schemaOf_append (r : CreateCubeRequest) (root : XElem) :
    schemaOf (applyToSchema (appendCube r) root) = appendCube r (schemaOf root) := by
  cases root with
  | mk t a x cs tl =>
    cases hr : replSchemaL (appendCube r) cs with
    | some cs2 =>
      rcases ((replSchema_spec (appendCube r) (appendCube_tag r)).2 cs).2 cs2 hr with
        ⟨s, h1, h2⟩
      simp [applyToSchema, hr, schemaOf, h1, h2]
    | none =>
      have hnone : findSchemaL cs = none :=
        ((replSchema_spec (appendCube r) (appendCube_tag r)).2 cs).1 hr
      have hall : ∀ y ∈ descL cs, isSchema y = false := (findSchema_none.2 cs).mp hnone
      have hsnoc : findSchemaL (XList.snoc cs (buildCube r)) = none := by
        apply (findSchema_none.2 _).mpr
        intro y hy
        rw [descL_snoc] at hy
        rcases List.mem_append.mp hy with hy | hy
        · exact hall y hy
        · rcases List.mem_cons.mp hy with rfl | hy
          · exact (buildCube_noSchema r).1
          · exact (buildCube_noSchema r).2 y hy
      simp [applyToSchema, hr, schemaOf, hnone, appendCube, hsnoc]

/-- The cube subtree built by create contains no nested cube. -/
theorem buildCube_filter_nil (r : CreateCubeRequest) :
    (descE (buildCube r)).filter isCube = [] := by
  apply List.filter_eq_nil_iff.mpr
  intro e he
  have h := (buildCube_desc_tags r e he).1
  simp [isCube, h]

/-- C4: a successful create mutates exactly the schema node by
appending the built cube after all of its existing children, so the new
cube follows every cube already under Schema; in the concrete two-step
scenario, creating `A` on an empty schema and then `B` makes enumerate
return `["A", "B"]`. -/
theorem c4_create_appends_at_end :
    (∀ (root : XElem) (r : CreateCubeRequest) (t : XElem),
      create_cube root r = Except.ok t →
        schemaOf t = appendCube r (schemaOf root) ∧
        cubesUnder (schemaOf t) = cubesUnder (schemaOf root) ++ [buildCube r]) ∧
    enumNames (demoStep (demoStep emptySchema reqA) reqB) = ["A", "B"] ∧
    resOk (api_create emptySchema reqA) = true ∧
    resOk (api_create (demoStep emptySchema reqA) reqB) = true := by
  refine ⟨?_, by decide, by decide, by decide⟩
  intro root r t h
  have ht : t = applyToSchema (appendCube r) root := by
    unfold create_cube at h
    cases hfind : etFindName root r.cube_name with
    | error e => rw [hfind] at h; simp at h
    | ok o =>
      cases o with
      | some c => rw [hfind] at h; simp at h
      | none =>
        rw [hfind] at h
        simp only [Except.ok.injEq] at h
        exact h.symm
  subst ht
  refine ⟨schemaOf_append r root, ?_⟩
  rw [schemaOf_append r root]
  cases hsch : schemaOf root with
  | mk t2 a x cs tl =>
    simp [cubesUnder, appendCube, descE, descL_snoc, List.filter_append,
      buildCube_isCube, buildCube_filter_nil]
    intro y hy
    have htag := (buildCube_desc_tags r y hy).1
    simp [isCube, htag]

/-- C4 witness: the append theorem applied to the concrete creation of
cube `A` on the empty schema. -/
theorem c4_witness :
    create_cube emptySchema reqA = Except.ok treeA ∧
    schemaOf treeA = appendCube reqA (schemaOf emptySchema) ∧
    cubesUnder (schemaOf treeA) = cubesUnder (schemaOf emptySchema) ++ [buildCube reqA] := by
  have h := c4_create_appends_at_end.1 emptySchema reqA treeA (by decide)
  exact ⟨by decide, h.1, h.2⟩

/-- C8 amended: for a name without a single quote, the lookup matches by
exact name equality over all Cube descendants of the document root at
any depth (first match in document order), not only over the direct
children of Schema. -/
theorem c8_lookup_all_descendants (root : XElem) (name : String)
    (h : containsQuote name = false) :
    ((∃ c ∈ descendants root, cubeNamed name c = true) ↔
      resOk (get_cube_by_name root name) = true) ∧
    (∀ c, get_cube_by_name root name = Except.ok c →
      c ∈ descendants root ∧ c.tag = "Cube" ∧ attrGet c "name" = some name) := by
  constructor
  · cases hfc : findCube root name with
    | some c =>
      have hc : c ∈ (descendants root).filter (cubeNamed name) := by
        rw [findCube] at hfc
        cases hl : (descendants root).filter (cubeNamed name) with
        | nil => rw [hl] at hfc; simp at hfc
        | cons y ys =>
          rw [hl] at hfc
          simp only [List.head?_cons, Option.some.injEq] at hfc
          simp [hfc]
      constructor
      · intro _; simp [get_quoteFree root name h, hfc, resOk]
      · intro _
        have := List.mem_filter.mp hc
        exact ⟨c, this.1, this.2⟩
    | none =>
      have hnil : (descendants root).filter (cubeNamed name) = [] := by
        rw [findCube] at hfc
        simpa using hfc
      constructor
      · rintro ⟨c, hc, hp⟩
        have : c ∈ (descendants root).filter (cubeNamed name) :=
          List.mem_filter.mpr ⟨hc, hp⟩
        rw [hnil] at this
        exact absurd this (List.not_mem_nil c)
      · intro hok
        simp [get_quoteFree root name h, hfc, resOk] at hok
  · intro c hok
    cases hfc : findCube root name with
    | some c2 =>
      have hceq : c2 = c := by
        simp [get_quoteFree root name h, hfc] at hok
        exact hok
      subst hceq
      have hc : c2 ∈ (descendants root).filter (cubeNamed name) := by
        rw [findCube] at hfc
        cases hl : (descendants root).filter (cubeNamed name) with
        | nil => rw [hl] at hfc; simp at hfc
        | cons y ys =>
          rw [hl] at hfc
          simp only [List.head?_cons, Option.some.injEq] at hfc
          simp [hfc]
      have hm := List.mem_filter.mp hc
      have hp := hm.2
      simp only [cubeNamed, isCube, Bool.and_eq_true, beq_iff_eq] at hp
      exact ⟨hm.1, hp.1, hp.2⟩
    | none => simp [get_quoteFree root name h, hfc] at hok

/-- C8 witness: the all-descendants lookup theorem applied to the
document whose only cube is nested below a wrapper element. -/
theorem c8_witness :
    containsQuote "N" = false ∧
    ((∃ c ∈ descendants nestedTree, cubeNamed "N" c = true) ↔
      resOk (get_cube_by_name nestedTree "N") = true) :=
  ⟨rfl, (c8_lookup_all_descendants nestedTree "N" rfl).1⟩

/-- C9 amended: for a name without a single quote that matches no cube,
get and delete both fail with the 404 whose detail string ends with the
comma-joined list of all cube names in the document. -/
theorem c9_not_found_lists_names (root : XElem) (name : String)
    (h1 : containsQuote name = false) (h2 : findCube root name = none) :
    get_cube_by_name root name = .error (.notFound (notFoundDetail name root)) ∧
    delete_cube root name = .error (.notFound (notFoundDetail name root)) ∧
    ∃ p, notFoundDetail name root = p ++ joinComma (enumNames root) := by
  refine ⟨?_, ?_, ?_⟩
  · simp [get_quoteFree root name h1, h2]
  · simp [delete_quoteFree root name h1, h2]
  · exact ⟨"Cube " ++ sqs ++ name ++ sqs ++ " not found. Available cubes: ", rfl⟩

/-- C9 witness: the 404 theorem applied to a missing name on the
`Sales` document. -/
theorem c9_witness :
    containsQuote "Missing" = false ∧
    findCube demoTree "Missing" = none ∧
    get_cube_by_name demoTree "Missing" =
      .error (.notFound (notFoundDetail "Missing" demoTree)) ∧
    delete_cube demoTree "Missing" =
      .error (.notFound (notFoundDetail "Missing" demoTree)) ∧
    ∃ p, notFoundDetail "Missing" demoTree = p ++ joinComma (enumNames demoTree) := by
  have h := c9_not_found_lists_names demoTree "Missing" (by decide) (by decide)
  exact ⟨by decide, by decide, h.1, h.2.1, h.2.2⟩

/-- C3 amended: when the document already contains a cube with the
requested name and that name holds no single quote, create fails with
the conflict error (HTTP 400) before building anything, and since the
outcome is an error no write happens, leaving the persisted document
unchanged. -/
theorem c3_duplicate_create_conflicts (root : XElem) (r : CreateCubeRequest)
    (h1 : containsQuote r.cube_name = false)
    (h2 : (findCube root r.cube_name).isSome = true) :
    create_cube root r = .error (.conflict (conflictDetail r.cube_name)) := by
  rw [create_quoteFree root r h1]
  cases hfc : findCube root r.cube_name with
  | none => rw [hfc] at h2; cases h2
  | some c => rfl

/-- C3 witness: the conflict theorem applied to re-creating `Sales` on
the document that already holds it. -/
theorem c3_witness :
    containsQuote reqSales.cube_name = false ∧
    (findCube demoTree reqSales.cube_name).isSome = true ∧
    create_cube demoTree reqSales = .error (.conflict (conflictDetail reqSales.cube_name)) := by
  have h := c3_duplicate_create_conflicts demoTree reqSales (by decide) (by decide)
  exact ⟨by decide, by decide, h⟩

/-- C5 amended: the validation pydantic actually performs rejects, with
a `ValidationError` raised before the manager (and hence before any
mutation) runs, every request whose dimensions list is empty, whose
measures list is empty, or that contains a dimension with no hierarchy
or a hierarchy with no level; empty `cube_name` or `table_name` strings
are not validated (see the counterexample). -/
theorem c5_list_validation (root : XElem) (name : String) (r : CreateCubeRequest)
    (h : r.dimensions = [] ∨ r.measures = [] ∨
      (∃ d ∈ r.dimensions, d.hierarchies = []) ∨
      (∃ d ∈ r.dimensions, ∃ hh ∈ d.hierarchies, hh.levels = [])) :
    api_create root r = .error .validationError ∧
    api_update root name r = .error .validationError := by
  have hpy : pydanticOK r = false := by
    cases hv : pydanticOK r with
    | false => rfl
    | true =>
      exfalso
      have hv2 := hv
      simp only [pydanticOK, Bool.and_eq_true] at hv2
      rcases hv2 with ⟨⟨hd, hall⟩, hm⟩
      rcases h with h | h | ⟨d, hdm, he⟩ | ⟨d, hdm, hh, hhm, he⟩
      · rw [h] at hd; simp at hd
      · rw [h] at hm; simp at hm
      · have hp := (List.all_eq_true.mp hall) d hdm
        rw [Bool.and_eq_true] at hp
        rw [he] at hp
        simp at hp
      · have hp := (List.all_eq_true.mp hall) d hdm
        rw [Bool.and_eq_true] at hp
        have hq := (List.all_eq_true.mp hp.2) hh hhm
        rw [he] at hq
        simp at hq
  exact ⟨by simp [api_create, hpy], by simp [api_update, hpy]⟩

/-- C5 witness: the list-validation theorem applied to the request with
no dimensions. -/
theorem c5_witness :
    api_create emptySchema reqNoDims = .error .validationError ∧
    api_update emptySchema "x" reqNoDims = .error .validationError :=
  c5_list_validation emptySchema "x" reqNoDims (Or.inl rfl)
